import Mathlib

/-!
Verification development for the `render-engine` document-preparation
pipeline: a shallow embedding of the Delta→Typst transpiler
(`src/render-engine/src/delta_parser.rs`), the memo schema validator
(`src/render-engine/src/form_validation.rs`), the content dispatcher
(`src/render-engine/src/form_processor.rs`) and the asset/package registry
(`src/render-engine/src/assets.rs`), together with theorems about them.

Modelling conventions:
* Rust `String`s manipulated by the pipeline are modelled as `List Char`
  (abbreviated `Str`), so that list lemmas apply; concrete literals are
  injected with `lit`.
* `serde_json::Value` is modelled by the inductive `Json`.  JSON objects
  are association lists looked up by first occurrence, which matches the
  unique-key maps produced by serde's parser.  Numbers are modelled as
  integers (no claim involves floating-point values).
* Functions that in Rust return `Result` but whose every path returns `Ok`
  (`apply_text_formatting`, `handle_line_formatting`, `format_list_item`)
  are modelled as plain functions.
* Rust `Debug` renderings interpolated into error messages are
  approximated by `debugJson`; no theorem depends on those message texts.
* `char::is_whitespace` is modelled over the ASCII whitespace characters,
  the only ones the transpiler emits.
-/

/-- Character strings of the pipeline, as lists of characters. -/
abbrev Str := List Char

/-- Inject a Lean string literal into the `Str` representation. -/
def lit (s : String) : Str := s.data

/-- Shallow model of `serde_json::Value`. -/
inductive Json where
  | null
  | bool (b : Bool)
  | num (n : Int)
  | str (s : Str)
  | arr (elems : List Json)
  | obj (fields : List (Str × Json))

/-- Build a JSON string value from a literal. -/
def jstr (s : String) : Json := .str (lit s)

/-- Build a JSON object from literal keys. -/
def jobj (l : List (String × Json)) : Json :=
  .obj (l.map (fun p => (lit p.1, p.2)))

/-- First-occurrence lookup in an object's field list (serde map `get`). -/
def lookupField : List (Str × Json) → Str → Option Json
  | [], _ => none
  | (k, v) :: rest, key => if k = key then some v else lookupField rest key

/-- `Value::get` on an arbitrary value: `None` unless the value is an object. -/
def jget (j : Json) (key : String) : Option Json :=
  match j with
  | .obj fields => lookupField fields (lit key)
  | _ => none

/-- `Value::as_object`. -/
def as_object : Json → Option (List (Str × Json))
  | .obj fields => some fields
  | _ => none

/-- `Value::as_array`. -/
def as_array : Json → Option (List Json)
  | .arr elems => some elems
  | _ => none

/-- `Value::as_bool`. -/
def as_bool : Json → Option Bool
  | .bool b => some b
  | _ => none

/-- `Value::as_str`. -/
def as_str : Json → Option Str
  | .str s => some s
  | _ => none

/-- `Value::as_u64` (numbers are modelled as integers). -/
def as_u64 : Json → Option Nat
  | .num n => if 0 ≤ n then some n.toNat else none
  | _ => none

/-- Abbreviated stand-in for Rust's `Debug` rendering of a `serde_json::Value`
(used only inside error messages; no theorem depends on the exact text). -/
def debugJson : Json → Str
  | .null => lit "Null"
  | .bool true => lit "Bool(true)"
  | .bool false => lit "Bool(false)"
  | .num n => lit "Number(" ++ (toString n).data ++ lit ")"
  | .str s => lit "String(\"" ++ s ++ lit "\")"
  | .arr _ => lit "Array [..]"
  | .obj _ => lit "Object \x7b..\x7d"

/-- `ParserError` from `delta_parser.rs`. -/
inductive ParserError where
  | InvalidFormat (msg : Str)
  | UnsupportedOperation (msg : Str)
  | JsonError (msg : Str)

/-- `ListType` from `delta_parser.rs`. -/
inductive ListType where
  | bullet
  | ordered

/-- `ListInfo` from `delta_parser.rs`. -/
structure ListInfo where
  list_type : ListType
  indent_level : Nat

/-- ASCII model of `char::is_whitespace` (the transpiler only ever emits
spaces, tabs, carriage returns and newlines). -/
def isWsChar (c : Char) : Bool :=
  c = ' ' || c = '\t' || c = '\n' || c = '\r'

/-- Rust `str::trim_end`: drop trailing whitespace. -/
def trim_end (s : Str) : Str :=
  (s.reverse.dropWhile isWsChar).reverse

/-- `DeltaParser::apply_text_formatting`: wrap a text run according to its
inline attributes, in the fixed order bold, italic, underline,
strikethrough, code (each later attribute wrapping the previous result). -/
def apply_text_formatting (text : Str) (attributes : Option (List (Str × Json))) : Str :=
  match attributes with
  | none => text
  | some attrs =>
    let getFlag (key : String) : Bool :=
      ((lookupField attrs (lit key)).bind as_bool).getD false
    let f0 := text
    let f1 := if getFlag "bold" then lit "*" ++ f0 ++ lit "*" else f0
    let f2 := if getFlag "italic" then lit "_" ++ f1 ++ lit "_" else f1
    let f3 := if getFlag "underline" then lit "#underline[" ++ f2 ++ lit "]" else f2
    let f4 := if getFlag "strike" then lit "#strike[" ++ f3 ++ lit "]" else f3
    let f5 := if getFlag "code" then lit "`" ++ f4 ++ lit "`" else f4
    f5

/-- `DeltaParser::handle_line_formatting`: headers, blockquotes, code blocks. -/
def handle_line_formatting (text : Str) (attrs : List (Str × Json)) : Str :=
  let r0 := text
  let r1 :=
    match (lookupField attrs (lit "header")).bind as_u64 with
    | some header_level => List.replicate header_level '=' ++ lit " " ++ r0
    | none => r0
  let r2 :=
    if ((lookupField attrs (lit "blockquote")).bind as_bool).getD false then
      lit "> " ++ r1
    else r1
  let r3 :=
    if ((lookupField attrs (lit "code-block")).bind as_bool).getD false then
      lit "```\n" ++ r2 ++ lit "\n```"
    else r2
  r3

/-- `DeltaParser::extract_list_info`: recognize `list` attributes, returning
`none` for a missing key, a non-string value, or an unknown list-type string. -/
def extract_list_info (attrs : List (Str × Json)) : Option ListInfo :=
  match lookupField attrs (lit "list") with
  | some list_type_val =>
    let indent_level := ((lookupField attrs (lit "indent")).bind as_u64).getD 0
    match as_str list_type_val with
    | none => none
    | some s =>
      if s = lit "bullet" then some ⟨ListType.bullet, indent_level⟩
      else if s = lit "ordered" then some ⟨ListType.ordered, indent_level⟩
      else none
  | none => none

/-- `DeltaParser::format_list_item`. -/
def format_list_item (text : Str) (list_info : ListInfo) : Str :=
  let marker : Str :=
    match list_info.list_type with
    | ListType.bullet => lit "-"
    | ListType.ordered => lit "+"
  (List.replicate list_info.indent_level (lit "  ")).flatten ++ marker ++ lit " " ++ text ++ lit "\n"

/-- `DeltaParser::handle_embed`: only `{image: url}` embeds are supported. -/
def handle_embed (embed : List (Str × Json)) : Except ParserError Str :=
  match (lookupField embed (lit "image")).bind as_str with
  | some image_url => .ok (lit "#image(\"" ++ image_url ++ lit "\")")
  | none =>
    .error (.UnsupportedOperation
      (lit "Unsupported embed type: " ++ debugJson (.obj embed)))

/-- Loop state of `DeltaParser::convert_json_to_typst`: the output
accumulator, the current line buffer, and the `in_list` flag. -/
structure ParseSt where
  result : Str
  current_line : Str
  in_list : Bool

/-- One iteration of the `for op in ops` loop of
`DeltaParser::convert_json_to_typst`. -/
def processOp (op : Json) (st : ParseSt) : Except ParserError ParseSt :=
  match jget op "insert" with
  | some ins =>
    let attributes := (jget op "attributes").bind as_object
    match ins with
    | .str text =>
      if text = lit "\n" then
        match attributes with
        | some attrs =>
          let formatted_line := handle_line_formatting st.current_line attrs
          match extract_list_info attrs with
          | some list_info =>
            let list_item := format_list_item st.current_line list_info
            .ok ⟨st.result ++ list_item, [], true⟩
          | none =>
            let r1 := if st.in_list then st.result ++ lit "\n" else st.result
            let r2 :=
              if formatted_line.isEmpty && !st.current_line.isEmpty then
                r1 ++ st.current_line
              else r1 ++ formatted_line
            let r3 :=
              if !st.current_line.isEmpty || !formatted_line.isEmpty then
                r2 ++ lit "\n"
              else r2
            .ok ⟨r3, [], false⟩
        | none =>
          let r1 := if st.in_list then st.result ++ lit "\n" else st.result
          let r2 :=
            if !st.current_line.isEmpty then r1 ++ st.current_line ++ lit "\n"
            else r1 ++ lit "\n"
          .ok ⟨r2, [], false⟩
      else
        .ok ⟨st.result, st.current_line ++ apply_text_formatting text attributes, st.in_list⟩
    | .obj embed =>
      match handle_embed embed with
      | .error e => .error e
      | .ok embed_typst =>
        .ok ⟨st.result, st.current_line ++ embed_typst, st.in_list⟩
    | other =>
      .error (.InvalidFormat (lit "Unsupported insert type: " ++ debugJson other))
  | none =>
    if (jget op "retain").isSome then
      .error (.UnsupportedOperation
        (lit "Retain operations are not supported in document parsing"))
    else if (jget op "delete").isSome then
      .error (.UnsupportedOperation
        (lit "Delete operations are not supported in document parsing"))
    else
      .ok st

/-- The `for op in ops` loop of `DeltaParser::convert_json_to_typst`. -/
def procOps : List Json → ParseSt → Except ParserError ParseSt
  | [], st => .ok st
  | op :: rest, st =>
    match processOp op st with
    | .error e => .error e
    | .ok st' => procOps rest st'

/-- `DeltaParser::convert_json_to_typst`: run the loop over the `ops` array,
flush the pending line buffer, and trim trailing whitespace. -/
def convert_json_to_typst (json_value : Json) : Except ParserError Str :=
  match (jget json_value "ops").bind as_array with
  | none => .error (.InvalidFormat (lit "Missing ops array"))
  | some ops =>
    match procOps ops ⟨[], [], false⟩ with
    | .error e => .error e
    | .ok st => .ok (trim_end (st.result ++ st.current_line))



/-! ### Schema validator (`form_validation.rs`)

JSON objects reach the validator as parsed maps; iteration order of the
Rust map types is modelled by field/insertion order.  The claims proved
below only concern membership in the accumulated error list, which does
not depend on that order.  Helper validators return their error lists
directly (the Rust versions wrap an empty list as `Ok`, a nonempty one as
`Err`, and the caller appends either way). -/

/-- `ValidationError` from `form_validation.rs`. -/
structure ValidationError where
  field_path : Str
  message : Str
  deriving DecidableEq

/-- `ValueType` from `form_validation.rs`. -/
inductive ValueType where
  | String
  | Array
  | Object
  | Number
  | Boolean
  | Null
  deriving DecidableEq

/-- `ValidationRule` from `form_validation.rs` (`Type` is rendered as
`typeIs` because `Type` is a Lean keyword). -/
inductive ValidationRule where
  | typeIs (expected : ValueType)
  | arrayItems (expected : ValueType)
  | stringLength (min : Nat)
  | arrayLength (min : Nat)
  | nullableArray
  | enum (allowed : List Str)

/-- `BodySchema` from `form_validation.rs`. -/
structure BodySchema where
  allowed_properties : List Str
  properties : List (Str × List ValidationRule)

/-- `MemoSchema` from `form_validation.rs`. -/
structure MemoSchema where
  allowed_properties : List Str
  required_properties : List Str
  properties : List (Str × List ValidationRule)
  body_schema : BodySchema

/-- `MemoSchema::official_memorandum`. -/
def official_memorandum : MemoSchema where
  allowed_properties :=
    [lit "memo-for", lit "from-block", lit "subject", lit "references",
     lit "signature-block", lit "body"]
  required_properties :=
    [lit "memo-for", lit "from-block", lit "subject", lit "signature-block", lit "body"]
  properties :=
    [(lit "memo-for", [.typeIs .Array, .arrayLength 1, .arrayItems .String]),
     (lit "from-block", [.typeIs .Array, .arrayLength 1, .arrayItems .String]),
     (lit "subject", [.typeIs .String, .stringLength 1]),
     (lit "references", [.nullableArray]),
     (lit "signature-block", [.typeIs .Array, .arrayLength 2, .arrayItems .String]),
     (lit "body", [.typeIs .Object])]
  body_schema :=
    { allowed_properties := [lit "format", lit "data"],
      properties :=
        [(lit "format", [.typeIs .String, .enum [lit "plaintext"]]),
         (lit "data", [.typeIs .String])] }

/-- The `Debug` rendering of a `ValueType` used in error messages. -/
def valueTypeDebug : ValueType → Str
  | .String => lit "String"
  | .Array => lit "Array"
  | .Object => lit "Object"
  | .Number => lit "Number"
  | .Boolean => lit "Boolean"
  | .Null => lit "Null"

/-- Decimal rendering of a number interpolated into a message. -/
def natStr (n : Nat) : Str := (toString n).data

/-- The `ValueType` of a JSON value (the `match` in `validate_type`). -/
def typeOfValue : Json → ValueType
  | .str _ => .String
  | .arr _ => .Array
  | .obj _ => .Object
  | .num _ => .Number
  | .bool _ => .Boolean
  | .null => .Null

/-- `serde_json` map `contains_key`. -/
def hasFieldKey (fields : List (Str × Json)) (key : Str) : Bool :=
  (lookupField fields key).isSome

/-- `MemoValidator::validate_type`. -/
def validate_type (value : Json) (expected_type : ValueType) (path : Str) :
    List ValidationError :=
  let actual_type := typeOfValue value
  if actual_type ≠ expected_type then
    [⟨path, lit "Property '" ++ path ++ lit "' must be " ++ valueTypeDebug expected_type ++
      lit " (got " ++ valueTypeDebug actual_type ++ lit ")"⟩]
  else []

/-- `MemoValidator::validate_array_items`. -/
def validate_array_items (arr : List Json) (expected_type : ValueType) (path : Str) :
    List ValidationError :=
  arr.enum.filterMap fun p =>
    let actual_type := typeOfValue p.2
    if actual_type ≠ expected_type then
      some ⟨path, lit "All items in '" ++ path ++ lit "' array must be " ++
        valueTypeDebug expected_type ++ lit " (item " ++ natStr p.1 ++ lit " is " ++
        valueTypeDebug actual_type ++ lit ")"⟩
    else none

/-- Rust `str::len` counts UTF-8 bytes. -/
def strByteLen (s : Str) : Nat := (s.map Char.utf8Size).sum

/-- `MemoValidator::validate_string_length`. -/
def validate_string_length (value : Str) (min_length : Nat) (path : Str) :
    List ValidationError :=
  if strByteLen value < min_length then
    [⟨path, lit "Property '" ++ path ++ lit "' cannot be empty (minLength: " ++
      natStr min_length ++ lit ")"⟩]
  else []

/-- `MemoValidator::validate_array_length`. -/
def validate_array_length (arr : List Json) (min_items : Nat) (path : Str) :
    List ValidationError :=
  if arr.length < min_items then
    let plural := if min_items > 1 then lit "s" else ([] : Str)
    [⟨path, lit "Property '" ++ path ++ lit "' must contain at least " ++
      natStr min_items ++ lit " item" ++ plural⟩]
  else []

/-- `MemoValidator::validate_nullable_array`. -/
def validate_nullable_array (value : Json) (path : Str) : List ValidationError :=
  match value with
  | .null => []
  | .arr _ => []
  | _ => [⟨path, lit "Property '" ++ path ++ lit "' must be an array or null"⟩]

/-- `MemoValidator::validate_enum`. -/
def validate_enum (value : Str) (allowed_values : List Str) (path : Str) :
    List ValidationError :=
  if value ∈ allowed_values then []
  else
    [⟨path, lit "Property '" ++ path ++ lit "' must be one of: " ++
      (allowed_values.intersperse (lit ", ")).flatten ++ lit " (got '" ++ value ++ lit "')"⟩]

/-- `MemoValidator::validate_property`: apply each rule in order, appending
its errors. -/
def validate_property (value : Json) (rules : List ValidationRule) (path : Str) :
    List ValidationError :=
  rules.flatMap fun rule =>
    match rule with
    | .typeIs expected => validate_type value expected path
    | .arrayItems expected =>
      match value with
      | .arr arr => validate_array_items arr expected path
      | _ => []
    | .stringLength min =>
      match value with
      | .str s => validate_string_length s min path
      | _ => []
    | .arrayLength min =>
      match value with
      | .arr arr => validate_array_length arr min path
      | _ => []
    | .nullableArray => validate_nullable_array value path
    | .enum allowed =>
      match value with
      | .str s => validate_enum s allowed path
      | _ => []

/-- `MemoValidator::validate_body`. -/
def validate_body (body : List (Str × Json)) : List ValidationError :=
  let schema := official_memorandum
  let unknown :=
    body.filterMap fun p =>
      if p.1 ∈ schema.body_schema.allowed_properties then none
      else
        some ⟨lit "body." ++ p.1,
          lit "Unexpected property in body: '" ++ p.1 ++ lit "'. Allowed properties: " ++
          (schema.body_schema.allowed_properties.intersperse (lit ", ")).flatten⟩
  let ruleErrors :=
    schema.body_schema.properties.flatMap fun p =>
      match lookupField body p.1 with
      | some value => validate_property value p.2 (lit "body." ++ p.1)
      | none => []
  unknown ++ ruleErrors

/-- The accumulated error list of `MemoValidator::validate_memo`:
unknown-key errors, missing required-property errors, per-property rule
errors, the dedicated `references` items pass, and nested `body`
validation, appended in the order of the source. -/
def memoErrors (data : List (Str × Json)) : List ValidationError :=
  let schema := official_memorandum
  let unknownErrors :=
    data.filterMap fun p =>
      if p.1 ∈ schema.allowed_properties then none
      else
        some ⟨p.1, lit "Unexpected property '" ++ p.1 ++ lit "'. Allowed properties: " ++
          (schema.allowed_properties.intersperse (lit ", ")).flatten⟩
  let missingErrors :=
    schema.required_properties.filterMap fun required_prop =>
      if hasFieldKey data required_prop then none
      else some ⟨required_prop,
        lit "Required property '" ++ required_prop ++ lit "' is missing"⟩
  let propErrors :=
    schema.properties.flatMap fun p =>
      match lookupField data p.1 with
      | some value => validate_property value p.2 p.1
      | none => []
  let refErrors :=
    match lookupField data (lit "references") with
    | some (.arr ref_array) => validate_array_items ref_array .String (lit "references")
    | _ => []
  let bodyErrors :=
    match lookupField data (lit "body") with
    | some (.obj body_obj) => validate_body body_obj
    | _ => []
  unknownErrors ++ missingErrors ++ propErrors ++ refErrors ++ bodyErrors

/-- `MemoValidator::validate_memo`: `Ok` exactly when no violation was
accumulated. -/
def validate_memo (data : List (Str × Json)) : Except (List ValidationError) Unit :=
  if (memoErrors data).isEmpty then .ok () else .error (memoErrors data)

/-! ### `apply_defaults` (`form_validation.rs`)

`MemoValidator::apply_defaults` parses a JSON string, fills defaults into
the value, and re-serializes.  The embedding models the transform on the
parsed value; string-level JSON (de)serialization is serde's and outside
the embedding.  `serde_json` map insertion is modelled by appending the
fresh key (both inserts are guarded by `contains_key`, so the key is never
already present; lookups do not depend on position). -/

/-- The in-place `body.format` default of `MemoValidator::apply_defaults`:
locate the `body` entry (`get_mut`), and if its value is an object lacking
`format`, insert `format = "plaintext"`. -/
def apply_body_format_default : List (Str × Json) → List (Str × Json)
  | [] => []
  | (k, v) :: rest =>
    if k = lit "body" then
      match v with
      | .obj body_obj =>
        (k, .obj (if (lookupField body_obj (lit "format")).isSome then body_obj
                  else body_obj ++ [(lit "format", jstr "plaintext")])) :: rest
      | _ => (k, v) :: rest
    else (k, v) :: apply_body_format_default rest

/-- `MemoValidator::apply_defaults` on the parsed JSON value: insert
`references = null` when absent, then apply the `body.format` default;
non-objects pass through unchanged. -/
def apply_defaults : Json → Json
  | .obj fields =>
    let fields1 :=
      if (lookupField fields (lit "references")).isSome then fields
      else fields ++ [(lit "references", Json.null)]
    .obj (apply_body_format_default fields1)
  | v => v

/-! ### Asset & package registry (`assets.rs`)

The registries embed files via `include_str!`/`include_bytes!`; those
payloads are not part of the sources, so the entry contents are a
parameter (`contents` / `binContents`, one payload per registry key).
The Rust registries are `HashMap`s with unspecified iteration order; they
are modelled as lists in insertion order, and `binary_match_unique` shows
the one lookup that iterates (`resolve_binary_asset`) is insensitive to
that order. -/

/-- Polymorphic first-occurrence association-list lookup (`HashMap::get`). -/
def assocLookup {α : Type} : List (Str × α) → Str → Option α
  | [], _ => none
  | (k, v) :: rest, key => if k = key then some v else assocLookup rest key

/-- `StringAsset` from `assets.rs`. -/
structure StringAsset where
  content : Str
  path : Str
  deriving DecidableEq

/-- `BinaryAsset` from `assets.rs` (byte payloads as lists of bytes). -/
structure BinaryAsset where
  content : List Nat
  path : Str
  deriving DecidableEq

/-- `STRING_ASSET_REGISTRY`: the four embedded text assets. -/
def STRING_ASSET_REGISTRY (contents : Str → Str) : List (Str × StringAsset) :=
  [(lit "memo-loader-main",
    ⟨contents (lit "memo-loader-main"), lit "../memo-loader/main.typ"⟩),
   (lit "package-typst-toml",
    ⟨contents (lit "package-typst-toml"), lit "../tonguetoquill-usaf-memo/typst.toml"⟩),
   (lit "package-lib",
    ⟨contents (lit "package-lib"), lit "../tonguetoquill-usaf-memo/src/lib.typ"⟩),
   (lit "package-utils",
    ⟨contents (lit "package-utils"), lit "../tonguetoquill-usaf-memo/src/utils.typ"⟩)]

/-- `BINARY_ASSET_REGISTRY`: the five embedded binary assets. -/
def BINARY_ASSET_REGISTRY (binContents : Str → List Nat) : List (Str × BinaryAsset) :=
  [(lit "dod_seal.gif",
    ⟨binContents (lit "dod_seal.gif"), lit "memo-loader/assets/dod_seal.gif"⟩),
   (lit "arial.ttf",
    ⟨binContents (lit "arial.ttf"), lit "memo-loader/assets/arial.ttf"⟩),
   (lit "times.ttf",
    ⟨binContents (lit "times.ttf"), lit "memo-loader/assets/times.ttf"⟩),
   (lit "Times.ttc",
    ⟨binContents (lit "Times.ttc"), lit "memo-loader/assets/Times.ttc"⟩),
   (lit "CopperplateCC-Heavy.otf",
    ⟨binContents (lit "CopperplateCC-Heavy.otf"), lit "memo-loader/assets/CopperplateCC-Heavy.otf"⟩)]

/-- `load_string_asset`: exact-key lookup. -/
def load_string_asset (contents : Str → Str) (key : Str) : Option StringAsset :=
  assocLookup (STRING_ASSET_REGISTRY contents) key

/-- `load_binary_asset`: exact-key lookup. -/
def load_binary_asset (binContents : Str → List Nat) (key : Str) : Option BinaryAsset :=
  assocLookup (BINARY_ASSET_REGISTRY binContents) key

/-- `typst::syntax::package::PackageSpec`, with the version already
stringified (`spec.version.to_string()`); `nspace` renders the Rust field
`namespace`, a Lean keyword. -/
structure PackageSpec where
  nspace : Str
  name : Str
  version : Str

/-- `resolve_package_file`: single hardcoded package identity and a fixed
set of package-internal paths. -/
def resolve_package_file (contents : Str → Str) (spec : PackageSpec) (path : Str) :
    Option Str :=
  if spec.nspace = lit "preview" ∧ spec.name = lit "tonguetoquill-usaf-memo" ∧
      spec.version = lit "0.1.0" then
    if path = lit "typst.toml" then
      (load_string_asset contents (lit "package-typst-toml")).map (·.content)
    else if path = lit "src/lib.typ" then
      (load_string_asset contents (lit "package-lib")).map (·.content)
    else if path = lit "src/utils.typ" then
      (load_string_asset contents (lit "package-utils")).map (·.content)
    else none
  else none

/-- Rust `str::ends_with`, as the decidable list-suffix relation. -/
def endsWith (l suffix : Str) : Bool := decide (suffix <:+ l)

/-- `path.split('/').last().unwrap_or("")`: the final path segment. -/
def lastSegment : Str → Str
  | [] => []
  | c :: rest =>
    if '/' ∈ rest then lastSegment rest
    else if c = '/' then rest
    else c :: rest

/-- The per-entry condition of the `resolve_binary_asset` loop: exact path
equality, or the fallback fuzzy match exactly as coded — the requested
path ends with the asset path's final segment AND the asset path ends with
the requested path. -/
def matchesBinaryAsset (path : Str) (asset : BinaryAsset) : Bool :=
  path = asset.path ||
    (endsWith path (lastSegment asset.path) && endsWith asset.path path)

/-- `resolve_binary_asset`: first registry entry whose path matches exactly
or fuzzily. -/
def resolve_binary_asset (binContents : Str → List Nat) (path : Str) :
    Option (List Nat) :=
  ((BINARY_ASSET_REGISTRY binContents).find? fun p =>
    matchesBinaryAsset path p.2).map (fun p => p.2.content)

/-- The fallback fuzzy match in the SPEC's wording (for comparison with the
coded condition): the requested path's final path segment equals the
registered asset's final path segment, and the registered asset's full
path ends with the requested path as a suffix. -/
def fuzzyMatchSpec (path assetPath : Str) : Bool :=
  lastSegment path = lastSegment assetPath && endsWith assetPath path

/-! ### Content dispatcher (`form_processor.rs`)

String-level JSON parsing is serde's; the dispatcher embedding takes it as
a parameter `parseJson` (`DeltaParser::parse` is that parse followed by
`convert_json_to_typst`).  Likewise the schema-validation path takes the
schema-string parse and the `jsonschema` check as parameters — they are
never reached, which is what C4 asserts. -/

/-- `ContentFormat` from `form_processor.rs` (serde `rename_all =
"lowercase"`, default `Markup`). -/
inductive ContentFormat where
  | markup
  | delta
  deriving DecidableEq

/-- `Content` from `form_processor.rs`. -/
structure Content where
  format : ContentFormat
  data : Str

/-- Serde deserialization of `Content` from a JSON value: `data` is a
required string, `format` is optional (`#[serde(default)]`, so a missing
`format` becomes `Markup`) and must be `"markup"` or `"delta"`; unknown
fields are ignored. -/
def contentFromJson : Json → Option Content
  | .obj fields =>
    (match lookupField fields (lit "data") with
     | some (.str d) =>
       (match lookupField fields (lit "format") with
        | none => some ⟨.markup, d⟩
        | some (.str f) =>
          if f = lit "markup" then some ⟨.markup, d⟩
          else if f = lit "delta" then some ⟨.delta, d⟩
          else none
        | some _ => none)
     | _ => none)
  | _ => none

/-- `process_content`: `markup` data passes through unchanged; `delta` data
goes through `DeltaParser::parse` (JSON parse, then conversion). -/
def process_content (parseJson : Str → Except ParserError Json) (content : Content) :
    Except ParserError Str :=
  match content.format with
  | .markup => .ok content.data
  | .delta =>
    match parseJson content.data with
    | .error e => .error e
    | .ok json_value => convert_json_to_typst json_value

/-- `load_official_memo_schema_value`: fetch the `official-memo-schema`
string asset and parse it as JSON. -/
def load_official_memo_schema_value (contents : Str → Str)
    (parseSchema : Str → Option Json) : Except ParserError Json :=
  match load_string_asset contents (lit "official-memo-schema") with
  | none => .error (.InvalidFormat (lit "Schema asset not found"))
  | some schema_asset =>
    match parseSchema schema_asset.content with
    | some v => .ok v
    | none => .error (.InvalidFormat (lit "Invalid schema JSON: failed to parse as JSON"))

/-- `validate_official_memo_schema`: load the schema, parse the form JSON
(`parseForm` models serde's parse with the error already wrapped), then run
the `jsonschema` check (`schemaCheck`, also wrapped). -/
def validate_official_memo_schema (contents : Str → Str)
    (parseSchema : Str → Option Json) (parseForm : Str → Except ParserError Json)
    (schemaCheck : Json → Json → Except ParserError Unit) (form_json : Str) :
    Except ParserError Unit :=
  match load_official_memo_schema_value contents parseSchema with
  | .error e => .error e
  | .ok schema_json =>
    match parseForm form_json with
    | .error e => .error e
    | .ok instance_json => schemaCheck schema_json instance_json

/-- `validate_and_preprocess_form_json`: schema validation, then the
preprocessing step (taken as a parameter; it is only reached on success of
validation). -/
def validate_and_preprocess_form_json (contents : Str → Str)
    (parseSchema : Str → Option Json) (parseForm : Str → Except ParserError Json)
    (schemaCheck : Json → Json → Except ParserError Unit)
    (preprocess : Str → Except ParserError Str) (form_json : Str) :
    Except ParserError Str :=
  match validate_official_memo_schema contents parseSchema parseForm schemaCheck form_json with
  | .error e => .error e
  | .ok _ => preprocess form_json

/-! ### General lemmas about the transpiler loop -/

/-- Splitting the operation loop at an arbitrary point. -/
theorem procOps_append (pre rest : List Json) (st : ParseSt) :
    procOps (pre ++ rest) st =
      match procOps pre st with
      | .error e => .error e
      | .ok st' => procOps rest st' := by
  induction pre generalizing st with
  | nil => rfl
  | cons op pre ih =>
    simp only [List.cons_append, procOps]
    cases processOp op st with
    | error e => rfl
    | ok st' => exact ih st'

/-- An operation with no `insert` key and a `retain` or `delete` key always
fails with `UnsupportedOperation`. -/
theorem processOp_retain_delete (op : Json) (st : ParseSt)
    (hnoins : jget op "insert" = none)
    (hrd : (jget op "retain").isSome ∨ (jget op "delete").isSome) :
    ∃ msg, processOp op st = .error (.UnsupportedOperation msg) := by
  unfold processOp
  rw [hnoins]
  rcases hrd with h | h
  · simp [h]
  · by_cases hr : (jget op "retain").isSome
    · simp [hr]
    · simp [hr, h]

/-- A successful lookup comes from a member of the field list. -/
theorem lookupField_mem {fields : List (Str × Json)} {k : Str} {v : Json}
    (h : lookupField fields k = some v) : (k, v) ∈ fields := by
  induction fields with
  | nil => simp [lookupField] at h
  | cons p rest ih =>
    obtain ⟨k', v'⟩ := p
    by_cases hk : k' = k
    · subst hk
      simp [lookupField] at h
      simp [h]
    · simp [lookupField, hk] at h
      exact List.mem_cons_of_mem _ (ih h)

/-! ### C1 — retain/delete operations -/

/-- C1 (counterexample): an operation carrying BOTH an `insert` key and a
`retain` key is processed through the `insert` branch and does not error:
the document transpiles successfully to `x`, refuting the claim that any
operation containing a `retain` key yields an `UnsupportedOperation` error. -/
theorem retain_with_insert_not_error :
    convert_json_to_typst
      (jobj [("ops", Json.arr [jobj [("insert", jstr "x"), ("retain", Json.num 1)]])]) =
      .ok (lit "x") := by rfl

/-- C1 (amended): for every Delta document whose `ops` array contains an
operation that has no `insert` key and carries a `retain` or `delete` key,
the transpiler returns an error — hence no (partial) markup output — and,
whenever the operations before it process without error, that error is
specifically `UnsupportedOperation`. -/
theorem retain_delete_terminal (doc : Json) (ops pre post : List Json) (op : Json)
    (hops : (jget doc "ops").bind as_array = some ops)
    (hsplit : ops = pre ++ op :: post)
    (hnoins : jget op "insert" = none)
    (hrd : (jget op "retain").isSome ∨ (jget op "delete").isSome) :
    (∃ e, convert_json_to_typst doc = .error e) ∧
    (∀ st', procOps pre ⟨[], [], false⟩ = .ok st' →
      ∃ msg, convert_json_to_typst doc = .error (.UnsupportedOperation msg)) := by
  subst hsplit
  have hconv : convert_json_to_typst doc =
      match procOps (pre ++ op :: post) ⟨[], [], false⟩ with
      | .error e => .error e
      | .ok st => .ok (trim_end (st.result ++ st.current_line)) := by
    unfold convert_json_to_typst
    rw [hops]
  rw [procOps_append] at hconv
  cases hpre : procOps pre ⟨[], [], false⟩ with
  | error e =>
    rw [hpre] at hconv
    exact ⟨⟨e, hconv⟩, fun st' h => Except.noConfusion h⟩
  | ok st' =>
    obtain ⟨msg, hmsg⟩ := processOp_retain_delete op st' hnoins hrd
    rw [hpre] at hconv
    simp only [procOps, hmsg] at hconv
    exact ⟨⟨.UnsupportedOperation msg, hconv⟩, fun _ _ => ⟨msg, hconv⟩⟩

/-- C1 (witness): instantiating `retain_delete_terminal` on the concrete
document `{"ops":[{"retain":1}]}`. -/
theorem retain_delete_terminal_witness :
    ∃ msg,
      convert_json_to_typst (jobj [("ops", Json.arr [jobj [("retain", Json.num 1)]])]) =
        .error (.UnsupportedOperation msg) :=
  (retain_delete_terminal
      (jobj [("ops", Json.arr [jobj [("retain", Json.num 1)]])])
      [jobj [("retain", Json.num 1)]] [] [] (jobj [("retain", Json.num 1)])
      (by rfl) (by rfl) (by rfl) (Or.inl (by rfl))).2
    ⟨[], [], false⟩ (by rfl)

/-! ### C2 — inline formatting order -/

/-- Trimming does nothing to a string ending in a non-whitespace character. -/
theorem trim_end_append_nonws (l : Str) (c : Char) (h : isWsChar c = false) :
    trim_end (l ++ [c]) = l ++ [c] := by
  unfold trim_end
  rw [List.reverse_append]
  simp [List.dropWhile_cons, h]

/-- C2: inline formatting wraps in the fixed order bold (innermost), italic,
underline, strikethrough, code (outermost); only `true`-valued attributes
wrap; and a text run with `{bold: true, italic: true}` transpiles to
`_*text*_` (italic outside bold). -/
theorem inline_formatting_order :
    (∀ (text : Str) (attrs : List (Str × Json)),
      lookupField attrs (lit "bold") = some (.bool true) →
      lookupField attrs (lit "italic") = some (.bool true) →
      lookupField attrs (lit "underline") = some (.bool true) →
      lookupField attrs (lit "strike") = some (.bool true) →
      lookupField attrs (lit "code") = some (.bool true) →
      apply_text_formatting text (some attrs) =
        lit "`" ++ (lit "#strike[" ++ (lit "#underline[" ++
          (lit "_" ++ (lit "*" ++ text ++ lit "*") ++ lit "_") ++ lit "]") ++ lit "]") ++ lit "`") ∧
    (∀ (text : Str) (attrs : List (Str × Json)),
      (∀ k v, (k, v) ∈ attrs → (as_bool v).getD false = false) →
      apply_text_formatting text (some attrs) = text) ∧
    (∀ (text : Str), text ≠ lit "\n" →
      convert_json_to_typst
        (jobj [("ops", Json.arr
          [Json.obj [(lit "insert", Json.str text),
                     (lit "attributes", jobj [("bold", Json.bool true), ("italic", Json.bool true)])]])]) =
        .ok (lit "_*" ++ text ++ lit "*_")) := by
  refine ⟨?_, ?_, ?_⟩
  · intro text attrs hb hi hu hs hc
    simp [apply_text_formatting, hb, hi, hu, hs, hc, as_bool]
  · intro text attrs hall
    unfold apply_text_formatting
    have hflag : ∀ (key : String),
        ((lookupField attrs (lit key)).bind as_bool).getD false = false := by
      intro key
      cases hl : lookupField attrs (lit key) with
      | none => rfl
      | some v =>
        have := hall _ _ (lookupField_mem hl)
        simpa using this
    simp [hflag]
  · intro text hne
    have hne' : ¬ (text = ['\n']) := by simpa [lit] using hne
    have htrim := trim_end_append_nonws ('_' :: '*' :: (text ++ ['*'])) '_' (by decide)
    simp only [List.append_assoc, List.cons_append, List.nil_append] at htrim
    unfold convert_json_to_typst
    dsimp only [jobj, List.map, lit, jget, lookupField]
    simp only [reduceIte, as_array, Option.some_bind]
    dsimp only [procOps, processOp, jget, lookupField, lit]
    simp only [reduceIte, as_object, Option.some_bind, hne', if_false]
    dsimp only [apply_text_formatting, lookupField, lit]
    simp +decide only [reduceIte, as_bool, as_object, Option.some_bind, Option.getD_some,
      List.nil_append, List.cons_append, List.append_assoc, htrim, lookupField]

/-- C2 (witness): the concrete document from the spec transpiles to exactly
`_*Bold and italic*_`. -/
theorem inline_formatting_order_witness :
    convert_json_to_typst
      (jobj [("ops", Json.arr
        [Json.obj [(lit "insert", Json.str (lit "Bold and italic")),
                   (lit "attributes", jobj [("bold", Json.bool true), ("italic", Json.bool true)])]])]) =
      .ok (lit "_*Bold and italic*_") := by
  have h := inline_formatting_order.2.2 (lit "Bold and italic") (by decide)
  simpa [lit] using h


/-! ### C9 — unrecognized list-type strings -/

/-- C9 (counterexample): a line-terminating newline whose `list` attribute is
the unrecognized string `"checked"` does NOT produce an error: the document
transpiles successfully to `x`, the line being treated as a plain line. -/
theorem unknown_list_type_not_error :
    convert_json_to_typst
      (jobj [("ops", Json.arr
        [jobj [("insert", jstr "x")],
         jobj [("insert", jstr "\n"), ("attributes", jobj [("list", jstr "checked")])]])]) =
      .ok (lit "x") := by rfl

/-- C9 (amended): a `list` attribute whose string value is neither
`"bullet"` nor `"ordered"` is ignored — `extract_list_info` returns `none`
and the line is emitted as a plain (non-list) line, with no error. -/
theorem unknown_list_type_ignored (s : Str) (h1 : s ≠ lit "bullet") (h2 : s ≠ lit "ordered") :
    (∀ attrs, lookupField attrs (lit "list") = some (.str s) → extract_list_info attrs = none) ∧
    convert_json_to_typst
      (jobj [("ops", Json.arr
        [jobj [("insert", jstr "x")],
         Json.obj [(lit "insert", jstr "\n"), (lit "attributes", Json.obj [(lit "list", Json.str s)])]])]) =
      .ok (lit "x") := by
  have h1' : ¬ (s = ['b','u','l','l','e','t']) := by simpa [lit] using h1
  have h2' : ¬ (s = ['o','r','d','e','r','e','d']) := by simpa [lit] using h2
  have hext : ∀ attrs, lookupField attrs (lit "list") = some (.str s) → extract_list_info attrs = none := by
    intro attrs hl
    have hl' : lookupField attrs ['l','i','s','t'] = some (Json.str s) := hl
    simp [extract_list_info, hl', as_str, lit, h1', h2']
  refine ⟨hext, ?_⟩
  have hext1 : extract_list_info [(['l','i','s','t'], Json.str s)] = none :=
    hext _ (by simp [lookupField, lit])
  unfold convert_json_to_typst
  dsimp only [jobj, jstr, List.map, lit, jget, lookupField]
  simp only [reduceIte, as_array, Option.some_bind]
  dsimp only [procOps, processOp, jget, jstr, lookupField, lit]
  simp +decide only [reduceIte, as_object, as_bool, Option.some_bind, Option.none_bind,
    Option.getD_some, Option.getD_none,
    apply_text_formatting, handle_line_formatting, lookupField, lit, hext1,
    List.nil_append, List.cons_append, List.append_assoc]
  rfl

/-- C9 (witness): instantiating `unknown_list_type_ignored` at the concrete
unrecognized list type `"checked"`. -/
theorem unknown_list_type_ignored_witness :
    convert_json_to_typst
      (jobj [("ops", Json.arr
        [jobj [("insert", jstr "x")],
         Json.obj [(lit "insert", jstr "\n"),
                   (lit "attributes", Json.obj [(lit "list", Json.str (lit "checked"))])]])]) =
      .ok (lit "x") :=
  (unknown_list_type_ignored (lit "checked") (by decide) (by decide)).2


/-! ### C3 — missing required properties -/

/-- C3: for every memo object and every required property missing from it,
`validate_memo` returns an error list containing an error whose message
names that property; violations are accumulated, so this holds
simultaneously for each missing property of the same input. -/
theorem validate_memo_missing_required (data : List (Str × Json)) (p : Str)
    (hreq : p ∈ official_memorandum.required_properties)
    (hmiss : lookupField data p = none) :
    ∃ errs, validate_memo data = .error errs ∧
      (⟨p, lit "Required property '" ++ p ++ lit "' is missing"⟩ : ValidationError) ∈ errs := by
  have hmem :
      (⟨p, lit "Required property '" ++ p ++ lit "' is missing"⟩ : ValidationError) ∈
        memoErrors data := by
    unfold memoErrors
    simp only [List.mem_append]
    refine Or.inl (Or.inl (Or.inl (Or.inr ?_)))
    refine List.mem_filterMap.mpr ⟨p, hreq, ?_⟩
    simp [hasFieldKey, hmiss]
  have hne : (memoErrors data).isEmpty ≠ true := by
    simpa [List.isEmpty_iff] using List.ne_nil_of_mem hmem
  exact ⟨memoErrors data, by unfold validate_memo; rw [if_neg hne], hmem⟩

/-- C3 (witness): the empty memo object is missing `subject`, and the
returned error list names it. -/
theorem validate_memo_missing_required_witness :
    ∃ errs, validate_memo [] = .error errs ∧
      (⟨lit "subject", lit "Required property '" ++ lit "subject" ++ lit "' is missing"⟩ :
        ValidationError) ∈ errs :=
  validate_memo_missing_required [] (lit "subject") (by decide) (by rfl)

/-! ### C4 — schema validation can never succeed -/

/-- C4: the schema loader asks the string-asset registry for the key
`official-memo-schema`, which the registry does not contain, so
`validate_official_memo_schema` fails on every input — and therefore
`validate_and_preprocess_form_json` never reaches preprocessing. -/
theorem schema_validation_always_fails (contents : Str → Str)
    (parseSchema : Str → Option Json) (parseForm : Str → Except ParserError Json)
    (schemaCheck : Json → Json → Except ParserError Unit)
    (preprocess : Str → Except ParserError Str) (form_json : Str) :
    load_string_asset contents (lit "official-memo-schema") = none ∧
    validate_official_memo_schema contents parseSchema parseForm schemaCheck form_json =
      .error (.InvalidFormat (lit "Schema asset not found")) ∧
    validate_and_preprocess_form_json contents parseSchema parseForm schemaCheck
      preprocess form_json =
      .error (.InvalidFormat (lit "Schema asset not found")) :=
  ⟨rfl, rfl, rfl⟩

/-! ### C6 — package file resolution -/

/-- C6: `resolve_package_file` returns content exactly when the spec's
namespace, name and stringified version equal the single hardcoded package
identity and the relative path is one of the three known package-internal
files; every other combination returns `none`. -/
theorem resolve_package_file_spec (contents : Str → Str) (spec : PackageSpec)
    (path : Str) (c : Str) :
    resolve_package_file contents spec path = some c ↔
      (spec.nspace = lit "preview" ∧ spec.name = lit "tonguetoquill-usaf-memo" ∧
        spec.version = lit "0.1.0" ∧
        ((path = lit "typst.toml" ∧ c = contents (lit "package-typst-toml")) ∨
         (path = lit "src/lib.typ" ∧ c = contents (lit "package-lib")) ∨
         (path = lit "src/utils.typ" ∧ c = contents (lit "package-utils")))) := by
  unfold resolve_package_file
  by_cases hid : spec.nspace = lit "preview" ∧ spec.name = lit "tonguetoquill-usaf-memo" ∧
      spec.version = lit "0.1.0"
  · rw [if_pos hid]
    obtain ⟨h1, h2, h3⟩ := hid
    by_cases hp1 : path = lit "typst.toml"
    · simp +decide [hp1, load_string_asset, STRING_ASSET_REGISTRY, assocLookup, h1, h2, h3, eq_comm]
    · by_cases hp2 : path = lit "src/lib.typ"
      · simp +decide [hp1, hp2, load_string_asset, STRING_ASSET_REGISTRY, assocLookup, h1, h2, h3, eq_comm]
      · by_cases hp3 : path = lit "src/utils.typ"
        · simp +decide [hp1, hp2, hp3, load_string_asset, STRING_ASSET_REGISTRY, assocLookup,
            h1, h2, h3, eq_comm]
        · simp [hp1, hp2, hp3, h1, h2, h3]
  · rw [if_neg hid]
    constructor
    · intro h
      exact Option.noConfusion h
    · intro hcontra
      exact absurd ⟨hcontra.1, hcontra.2.1, hcontra.2.2.1⟩ hid

/-! ### C7/C8 — apply_defaults -/

/-- Lookup across an append: the left list wins. -/
theorem lookupField_append (l l' : List (Str × Json)) (k : Str) :
    lookupField (l ++ l') k =
      match lookupField l k with
      | some v => some v
      | none => lookupField l' k := by
  induction l with
  | nil => rfl
  | cons p rest ih =>
    obtain ⟨k1, v1⟩ := p
    by_cases hk : k1 = k
    · simp [lookupField, hk]
    · simp [lookupField, hk, ih]

/-- `apply_body_format_default` only touches the `body` entry. -/
theorem abfd_lookup_ne (l : List (Str × Json)) (k : Str) (hk : k ≠ lit "body") :
    lookupField (apply_body_format_default l) k = lookupField l k := by
  induction l with
  | nil => rfl
  | cons p rest ih =>
    obtain ⟨k1, v1⟩ := p
    by_cases h1 : k1 = lit "body"
    · subst h1
      cases v1 <;> simp [apply_body_format_default, lookupField, Ne.symm hk]
    · by_cases h2 : k1 = k
      · subst h2
        simp [apply_body_format_default, lookupField, h1]
      · simp [apply_body_format_default, lookupField, h1, h2, ih]

/-- Effect of `apply_body_format_default` on the `body` entry. -/
theorem abfd_lookup_body (l : List (Str × Json)) (body_obj : List (Str × Json))
    (h : lookupField l (lit "body") = some (.obj body_obj)) :
    lookupField (apply_body_format_default l) (lit "body") =
      some (.obj (if (lookupField body_obj (lit "format")).isSome then body_obj
                  else body_obj ++ [(lit "format", jstr "plaintext")])) := by
  induction l with
  | nil => exact absurd h (by simp [lookupField])
  | cons p rest ih =>
    obtain ⟨k1, v1⟩ := p
    by_cases h1 : k1 = lit "body"
    · subst h1
      simp only [lookupField, if_pos rfl] at h
      injection h with h
      subst h
      simp [apply_body_format_default, lookupField]
    · simp only [lookupField, if_neg h1] at h
      simp [apply_body_format_default, lookupField, h1, ih h]

/-- The `references` entry of the first-pass field list is always present. -/
theorem refs_present_after_default (fields : List (Str × Json)) :
    (lookupField
      (if (lookupField fields (lit "references")).isSome then fields
       else fields ++ [(lit "references", Json.null)]) (lit "references")).isSome := by
  by_cases h : (lookupField fields (lit "references")).isSome
  · simp [h]
  · rw [if_neg h]
    rw [lookupField_append]
    cases hl : lookupField fields (lit "references") with
    | some v => simp [hl] at h
    | none => simp [lookupField]

/-- C7: `apply_defaults` is a total (never-failing) transform that inserts
`references = null` exactly when `references` is absent, leaves a present
`references` unchanged, gives a `body` object lacking `format` the default
`format = "plaintext"` while leaving its other fields unchanged, and
passes every non-object input through unchanged; it validates nothing. -/
theorem apply_defaults_spec (fields : List (Str × Json)) :
    ∃ fields',
      apply_defaults (.obj fields) = .obj fields' ∧
      (lookupField fields (lit "references") = none →
        lookupField fields' (lit "references") = some Json.null) ∧
      (∀ v, lookupField fields (lit "references") = some v →
        lookupField fields' (lit "references") = some v) ∧
      (∀ body_obj, lookupField fields (lit "body") = some (.obj body_obj) →
        lookupField body_obj (lit "format") = none →
        ∃ body', lookupField fields' (lit "body") = some (.obj body') ∧
          lookupField body' (lit "format") = some (jstr "plaintext") ∧
          ∀ k, k ≠ lit "format" → lookupField body' k = lookupField body_obj k) ∧
      (∀ j, as_object j = none → apply_defaults j = j) := by
  refine ⟨_, rfl, ?_, ?_, ?_, ?_⟩
  · intro habs
    rw [abfd_lookup_ne _ _ (by decide)]
    rw [if_neg (by simp [habs])]
    rw [lookupField_append, habs]
    rfl
  · intro v hv
    rw [abfd_lookup_ne _ _ (by decide)]
    rw [if_pos (by simp [hv])]
    exact hv
  · intro body_obj hb hf
    have hb1 : lookupField
        (if (lookupField fields (lit "references")).isSome then fields
         else fields ++ [(lit "references", Json.null)]) (lit "body") =
        some (.obj body_obj) := by
      by_cases h : (lookupField fields (lit "references")).isSome
      · rwa [if_pos h]
      · rw [if_neg h, lookupField_append, hb]
    refine ⟨body_obj ++ [(lit "format", jstr "plaintext")], ?_, ?_, ?_⟩
    · rw [abfd_lookup_body _ _ hb1]
      rw [if_neg (by simp [hf])]
    · rw [lookupField_append, hf]
      rfl
    · intro k hk
      rw [lookupField_append]
      cases hl : lookupField body_obj k with
      | some v => rfl
      | none => simp [lookupField, Ne.symm hk]
  · intro j hj
    cases j <;> first | rfl | simp [as_object] at hj

/-- C7 (witness): on the empty object, `apply_defaults` yields an object
whose `references` is null. -/
theorem apply_defaults_spec_witness :
    ∃ fields', apply_defaults (.obj []) = .obj fields' ∧
      lookupField fields' (lit "references") = some Json.null := by
  obtain ⟨fields', heq, habs, -, -, -⟩ := apply_defaults_spec []
  exact ⟨fields', heq, habs (by rfl)⟩

/-- `apply_body_format_default` is idempotent. -/
theorem abfd_idem (l : List (Str × Json)) :
    apply_body_format_default (apply_body_format_default l) =
      apply_body_format_default l := by
  induction l with
  | nil => rfl
  | cons p rest ih =>
    obtain ⟨k1, v1⟩ := p
    by_cases h1 : k1 = lit "body"
    · subst h1
      cases v1 with
      | obj body_obj =>
        simp only [apply_body_format_default, if_pos rfl]
        have hsome :
            (lookupField
              (if (lookupField body_obj (lit "format")).isSome then body_obj
               else body_obj ++ [(lit "format", jstr "plaintext")]) (lit "format")).isSome := by
          by_cases h : (lookupField body_obj (lit "format")).isSome
          · simp [h]
          · rw [if_neg h, lookupField_append]
            cases hl : lookupField body_obj (lit "format") with
            | some v => simp [hl] at h
            | none => simp [lookupField]
        simp [hsome]
      | null => rfl
      | bool b => rfl
      | num n => rfl
      | str s => rfl
      | arr elems => rfl
    · have e1 : apply_body_format_default ((k1, v1) :: rest) =
          (k1, v1) :: apply_body_format_default rest := by
        cases v1 <;> simp [apply_body_format_default, h1]
      have e2 : apply_body_format_default ((k1, v1) :: apply_body_format_default rest) =
          (k1, v1) :: apply_body_format_default (apply_body_format_default rest) := by
        cases v1 <;> simp [apply_body_format_default, h1]
      rw [e1, e2, ih]

/-- C8: `apply_defaults` is idempotent — applying it twice yields the same
JSON value as applying it once. -/
theorem apply_defaults_idempotent (j : Json) :
    apply_defaults (apply_defaults j) = apply_defaults j := by
  cases j with
  | obj fields =>
    have h1 : apply_defaults (Json.obj fields) =
        Json.obj (apply_body_format_default
          (if (lookupField fields (lit "references")).isSome then fields
           else fields ++ [(lit "references", Json.null)])) := rfl
    rw [h1]
    generalize hX : apply_body_format_default
        (if (lookupField fields (lit "references")).isSome then fields
         else fields ++ [(lit "references", Json.null)]) = X
    have hrefs : (lookupField X (lit "references")).isSome := by
      rw [← hX, abfd_lookup_ne _ _ (by decide)]
      exact refs_present_after_default fields
    have h3 : apply_defaults (Json.obj X) =
        Json.obj (apply_body_format_default
          (if (lookupField X (lit "references")).isSome then X
           else X ++ [(lit "references", Json.null)])) := rfl
    rw [h3, if_pos hrefs, ← hX, abfd_idem]
  | null => rfl
  | bool b => rfl
  | num n => rfl
  | str s => rfl
  | arr elems => rfl

/-! ### C10 — markup content passes through unchanged -/

/-- C10: `process_content` returns the `data` string unchanged for every
`markup`-format content block; a content JSON object with no `format`
field deserializes with the default format `markup` (so such blocks also
pass through unchanged); only `delta`-format data is routed through the
Delta transpiler. -/
theorem process_content_markup_id (parseJson : Str → Except ParserError Json) :
    (∀ c : Content, c.format = ContentFormat.markup →
      process_content parseJson c = .ok c.data) ∧
    (∀ fields d, lookupField fields (lit "format") = none →
      lookupField fields (lit "data") = some (.str d) →
      contentFromJson (.obj fields) = some ⟨ContentFormat.markup, d⟩ ∧
      process_content parseJson ⟨ContentFormat.markup, d⟩ = .ok d) ∧
    (∀ d : Str, process_content parseJson ⟨ContentFormat.delta, d⟩ =
      match parseJson d with
      | .error e => .error e
      | .ok json_value => convert_json_to_typst json_value) := by
  refine ⟨?_, ?_, ?_⟩
  · intro c hc
    obtain ⟨fmt, d⟩ := c
    cases fmt
    · rfl
    · exact absurd hc (by simp)
  · intro fields d hfmt hdata
    constructor
    · simp only [contentFromJson, hdata, hfmt]
    · rfl
  · intro d
    rfl

/-- C10 (witness): instantiating `process_content_markup_id` on the block
`{"data":"Plain text"}` (no `format` field) with a trivial JSON parser. -/
theorem process_content_markup_id_witness :
    contentFromJson (.obj [(lit "data", jstr "Plain text")]) =
      some ⟨ContentFormat.markup, lit "Plain text"⟩ ∧
    process_content (fun _ => .error (.JsonError [])) ⟨ContentFormat.markup, lit "Plain text"⟩ =
      .ok (lit "Plain text") :=
  (process_content_markup_id (fun _ => .error (.JsonError []))).2.1
    [(lit "data", jstr "Plain text")] (lit "Plain text") (by rfl) (by rfl)

/-! ### C5 — binary asset resolution -/

/-- `endsWith` decides the suffix relation. -/
theorem endsWith_iff (l s : Str) : endsWith l s = true ↔ s <:+ l := by
  simp [endsWith]

/-- The final path segment is a suffix of the path. -/
theorem lastSegment_suffix (l : Str) : lastSegment l <:+ l := by
  induction l with
  | nil => exact List.suffix_refl []
  | cons c rest ih =>
    by_cases h1 : '/' ∈ rest
    · rw [lastSegment, if_pos h1]
      exact ih.trans (List.suffix_cons c rest)
    · by_cases h2 : c = '/'
      · rw [lastSegment, if_neg h1, if_pos h2]
        exact List.suffix_cons c rest
      · rw [lastSegment, if_neg h1, if_neg h2]

/-- The final path segment contains no separator. -/
theorem slash_not_mem_lastSegment (l : Str) : '/' ∉ lastSegment l := by
  induction l with
  | nil => simp [lastSegment]
  | cons c rest ih =>
    by_cases h1 : '/' ∈ rest
    · rw [lastSegment, if_pos h1]
      exact ih
    · by_cases h2 : c = '/'
      · rw [lastSegment, if_neg h1, if_pos h2]
        exact h1
      · rw [lastSegment, if_neg h1, if_neg h2]
        simp [Ne.symm h2, h1]

/-- Maximality: any separator-free suffix is a suffix of the final
segment. -/
theorem suffix_lastSegment (s l : Str) (hs : s <:+ l) (hns : '/' ∉ s) :
    s <:+ lastSegment l := by
  induction l with
  | nil =>
    rw [List.suffix_nil] at hs
    subst hs
    exact List.nil_suffix
  | cons c rest ih =>
    rcases List.suffix_cons_iff.mp hs with heq | hsuf
    · subst heq
      have h2 : ¬ c = '/' := fun h => hns (by simp [h])
      have h1 : '/' ∉ rest := fun h => hns (by simp [h])
      rw [lastSegment, if_neg h1, if_neg h2]
    · by_cases h1 : '/' ∈ rest
      · rw [lastSegment, if_pos h1]
        exact ih hsuf
      · by_cases h2 : c = '/'
        · rw [lastSegment, if_neg h1, if_pos h2]
          exact hsuf
        · rw [lastSegment, if_neg h1, if_neg h2]
          exact hsuf.trans (List.suffix_cons c rest)

/-- The coded fuzzy condition coincides with the spec's phrasing: requested
ends with the asset's final segment AND asset ends with requested ⟺ the
final segments are equal AND asset ends with requested. -/
theorem fuzzy_code_eq_spec (path assetPath : Str) :
    (endsWith path (lastSegment assetPath) && endsWith assetPath path) =
      fuzzyMatchSpec path assetPath := by
  unfold fuzzyMatchSpec
  rcases hcode : endsWith path (lastSegment assetPath) && endsWith assetPath path with _ | _
  · rcases hspec : lastSegment path = lastSegment assetPath && endsWith assetPath path
      with _ | _
    · rfl
    · exfalso
      rw [Bool.and_eq_true] at hspec
      obtain ⟨hseg, hap⟩ := hspec
      have hseg' : lastSegment path = lastSegment assetPath := by
        simpa using hseg
      have h1 : endsWith path (lastSegment assetPath) = true := by
        rw [endsWith_iff, ← hseg']
        exact lastSegment_suffix path
      rw [Bool.and_eq_false_iff] at hcode
      rcases hcode with h | h
      · rw [h1] at h
        exact Bool.noConfusion h
      · rw [hap] at h
        exact Bool.noConfusion h
  · rw [Bool.and_eq_true] at hcode
    obtain ⟨h1, h2⟩ := hcode
    rw [endsWith_iff] at h1 h2
    have hseg : lastSegment path = lastSegment assetPath := by
      have ha : lastSegment assetPath <:+ lastSegment path :=
        suffix_lastSegment _ _ h1 (slash_not_mem_lastSegment assetPath)
      have hb : lastSegment path <:+ lastSegment assetPath :=
        suffix_lastSegment _ _ ((lastSegment_suffix path).trans h2)
          (slash_not_mem_lastSegment path)
      exact hb.eq_of_length_le ha.length_le
    symm
    rw [Bool.and_eq_true]
    exact ⟨by simp [hseg], by rw [endsWith_iff]; exact h2⟩

/-- Any match (exact or fuzzy) pins down the asset path's final segment. -/
theorem matches_lastSegment_eq (q : Str) (a : BinaryAsset)
    (h : matchesBinaryAsset q a = true) : lastSegment a.path = lastSegment q := by
  unfold matchesBinaryAsset at h
  rw [Bool.or_eq_true] at h
  rcases h with h | h
  · have : q = a.path := by simpa using h
    rw [this]
  · rw [fuzzy_code_eq_spec] at h
    unfold fuzzyMatchSpec at h
    rw [Bool.and_eq_true] at h
    have := h.1
    simp only [decide_eq_true_eq] at this
    exact this.symm

/-- At most one registry entry can match a given requested path: the five
registered asset paths have pairwise distinct final segments, and any
match forces the entry's final segment. -/
theorem binary_match_unique (binContents : Str → List Nat) (q : Str)
    (e1 e2 : Str × BinaryAsset)
    (h1 : e1 ∈ BINARY_ASSET_REGISTRY binContents)
    (h2 : e2 ∈ BINARY_ASSET_REGISTRY binContents)
    (m1 : matchesBinaryAsset q e1.2 = true)
    (m2 : matchesBinaryAsset q e2.2 = true) : e1 = e2 := by
  have hseg := (matches_lastSegment_eq q e1.2 m1).trans
    (matches_lastSegment_eq q e2.2 m2).symm
  simp only [BINARY_ASSET_REGISTRY, List.mem_cons, List.not_mem_nil, or_false] at h1 h2
  rcases h1 with h1 | h1 | h1 | h1 | h1 <;> rcases h2 with h2 | h2 | h2 | h2 | h2 <;>
    subst h1 <;> subst h2 <;> first
      | rfl
      | (dsimp only at hseg; exact absurd hseg (by decide))

/-- C5: `resolve_binary_asset` is deterministic and exact-first.
(1) Each registered asset's own canonical path resolves to that asset's
bytes.  (2) A resolution succeeds with bytes `b` exactly when some
registry entry matches the requested path — by exact path equality or by
the coded fuzzy fallback — and `b` is that entry's bytes.  (3) A path
matching no entry resolves to `none`.  (4) The coded fuzzy fallback is
exactly the spec's: final segments equal and the asset path ends with the
requested path. -/
theorem resolve_binary_asset_spec (binContents : Str → List Nat) :
    (∀ key asset, (key, asset) ∈ BINARY_ASSET_REGISTRY binContents →
      resolve_binary_asset binContents asset.path = some asset.content) ∧
    (∀ path bytes, resolve_binary_asset binContents path = some bytes ↔
      ∃ key asset, (key, asset) ∈ BINARY_ASSET_REGISTRY binContents ∧
        bytes = asset.content ∧
        (path = asset.path ∨
          (endsWith path (lastSegment asset.path) ∧ endsWith asset.path path))) ∧
    (∀ path, resolve_binary_asset binContents path = none ↔
      ∀ key asset, (key, asset) ∈ BINARY_ASSET_REGISTRY binContents →
        matchesBinaryAsset path asset = false) ∧
    (∀ path assetPath,
      (endsWith path (lastSegment assetPath) && endsWith assetPath path) =
        fuzzyMatchSpec path assetPath) := by
  have hchar : ∀ path bytes, resolve_binary_asset binContents path = some bytes ↔
      ∃ key asset, (key, asset) ∈ BINARY_ASSET_REGISTRY binContents ∧
        bytes = asset.content ∧ matchesBinaryAsset path asset = true := by
    intro path bytes
    constructor
    · intro h
      unfold resolve_binary_asset at h
      rw [Option.map_eq_some'] at h
      obtain ⟨p, hfind, hbytes⟩ := h
      exact ⟨p.1, p.2, List.mem_of_find?_eq_some hfind, hbytes.symm,
        by simpa using List.find?_some hfind⟩
    · rintro ⟨key, asset, hmem, hbytes, hmatch⟩
      unfold resolve_binary_asset
      have hex : ((BINARY_ASSET_REGISTRY binContents).find? fun p =>
          matchesBinaryAsset path p.2).isSome := by
        rw [List.find?_isSome]
        exact ⟨(key, asset), hmem, hmatch⟩
      obtain ⟨p, hp⟩ := Option.isSome_iff_exists.mp hex
      have hpeq : p = (key, asset) :=
        binary_match_unique binContents path p (key, asset)
          (List.mem_of_find?_eq_some hp) hmem (by simpa using List.find?_some hp) hmatch
      rw [hp, hpeq, hbytes]
      rfl
  refine ⟨?_, ?_, ?_, fun path assetPath => fuzzy_code_eq_spec path assetPath⟩
  · intro key asset hmem
    refine (hchar asset.path asset.content).mpr ⟨key, asset, hmem, rfl, ?_⟩
    unfold matchesBinaryAsset
    simp
  · intro path bytes
    rw [hchar]
    constructor
    · rintro ⟨key, asset, hmem, hbytes, hmatch⟩
      unfold matchesBinaryAsset at hmatch
      rw [Bool.or_eq_true] at hmatch
      refine ⟨key, asset, hmem, hbytes, ?_⟩
      rcases hmatch with h | h
      · exact Or.inl (by simpa using h)
      · rw [Bool.and_eq_true] at h
        exact Or.inr h
    · rintro ⟨key, asset, hmem, hbytes, hmatch⟩
      refine ⟨key, asset, hmem, hbytes, ?_⟩
      unfold matchesBinaryAsset
      rw [Bool.or_eq_true]
      rcases hmatch with h | h
      · exact Or.inl (by simp [h])
      · exact Or.inr (Bool.and_eq_true .. |>.mpr h)
  · intro path
    unfold resolve_binary_asset
    rw [Option.map_eq_none']
    rw [List.find?_eq_none]
    constructor
    · intro h key asset hmem
      have := h (key, asset) hmem
      simpa using this
    · intro h p hmem
      have := h p.1 p.2 hmem
      simp [this]

/-- C5 (witness): with trivial byte payloads, the canonical path of the
`arial.ttf` asset resolves to that asset's bytes. -/
theorem resolve_binary_asset_spec_witness :
    resolve_binary_asset (fun _ => []) (lit "memo-loader/assets/arial.ttf") = some [] :=
  (resolve_binary_asset_spec (fun _ => [])).1 (lit "arial.ttf")
    ⟨[], lit "memo-loader/assets/arial.ttf"⟩ (by simp [BINARY_ASSET_REGISTRY])
